import Mathlib

/-
Verification development for the payout-bot repository (src/index.js).

Conventions of the shallow embedding:
* JavaScript strings that are parsed character by character (dates, amounts)
  are modelled as `List Char`; concrete literals are written `"...".data`.
  Opaque tokens (status values, button custom ids, snowflake ids, channel ids)
  are modelled as Lean `String`.
* Timestamps (`Date.now()` values, epoch milliseconds) are modelled as `Int`:
  every timestamp the program manipulates is an integral Number well inside
  the double-precision safe range.
* A payout row is the camelCase record produced by `mapRow`; nullable columns
  are `Option` fields.
* `new Date(y, m, d)` and the getters `getFullYear/getMonth/getDate` are
  modelled by the ECMA-262 proleptic-Gregorian calendar arithmetic
  (MakeDay and the local-time date getters, with a zero timezone offset,
  matching the "local wall-clock calendar, no timezone offset" reading of
  the program): `daysFromCivil`/`civilFromDays` implement the standard
  civil-calendar day-number correspondence, split era/century/year-of-century
  exactly as in the classical algorithms, and `civilFromDays_roundtrip`
  proves the two directions agree.
* The third branch of `normalizeDate` (the general `new Date(string)`
  parser) is environment- and locale-defined by ECMA-262; it is kept as an
  explicit `fallback` parameter, and every theorem below either quantifies
  over it or never reaches it.
-/

namespace PayoutBot

/-! ## Calendar model (ECMA-262 `new Date(y, m, d)` and its date getters) -/

/-- Day number (days since 1970-01-01) of a proleptic-Gregorian civil date,
with `m` one-based; the standard era/year-of-era decomposition. -/
def daysFromCivil (y m d : Int) : Int :=
  let y1 := y - (if m ≤ 2 then 1 else 0)
  let era := y1 / 400
  let yoe := y1 - era * 400
  let mp := m + (if 2 < m then -3 else 9)
  let doy := (153 * mp + 2) / 5 + d - 1
  let doe := yoe * 365 + yoe / 4 - yoe / 100 + doy
  era * 146097 + doe - 719468

/-- Civil date `(year, month, day)` (month one-based, so `month` is the
source's `getMonth() + 1` and `day` is `getDate()`) of a day number, via the
era / century / year-of-century decomposition of the Gregorian calendar. -/
def civilFromDays (n : Int) : Int × Int × Int :=
  let z := n + 719468
  let era := z / 146097
  let doe := z - era * 146097
  let c := (4 * doe + 3) / 146097
  let r := doe - 146097 * c / 4
  let yoc := (4 * r + 3) / 1461
  let doy := r - 1461 * yoc / 4
  let yoe := 100 * c + yoc
  let y := yoe + era * 400
  let mp := (5 * doy + 2) / 153
  let d := doy - (153 * mp + 2) / 5 + 1
  let m := mp + (if mp < 10 then 3 else -9)
  (y + (if m ≤ 2 then 1 else 0), m, d)

/-- ECMA-262 two-digit-year rule of the `Date(y, m, d)` constructor:
years 0..99 denote 1900..1999. -/
def yearAdjust (y : Int) : Int := if 0 ≤ y ∧ y ≤ 99 then 1900 + y else y

/-- ECMA-262 MakeDay: month overflow is folded into the year with floor
division, then the day count is offset by `dt - 1`. `m` is zero-based. -/
def makeDay (y m dt : Int) : Int :=
  daysFromCivil (y + m / 12) (m % 12 + 1) 1 + dt - 1

/-- A time value is a valid (non-NaN) Date iff it is within ECMA-262's
8.64e15 ms of the epoch, i.e. within 1e8 days. -/
def jsDateValid (days : Int) : Bool :=
  decide (-100000000 ≤ days ∧ days ≤ 100000000)

theorem daysFromCivil_epoch : daysFromCivil 1970 1 1 = 0 := by decide

theorem civilFromDays_epoch : civilFromDays 0 = (1970, 1, 1) := by decide

theorem civilFromDays_leap : civilFromDays 11016 = (2000, 2, 29) := by decide

/-- Century split of a day-of-era: the century index is in 0..3, its start
day is an exact multiple, and the day-of-century is in 0..36524. -/
theorem century_split (doe : Int) (h0 : 0 ≤ doe) (h1 : doe ≤ 146096) :
    0 ≤ (4 * doe + 3) / 146097 ∧ (4 * doe + 3) / 146097 ≤ 3 ∧
    146097 * ((4 * doe + 3) / 146097) / 4 = 36524 * ((4 * doe + 3) / 146097) ∧
    0 ≤ doe - 36524 * ((4 * doe + 3) / 146097) ∧
    doe - 36524 * ((4 * doe + 3) / 146097) ≤ 36524 := by
  refine ⟨?_, ?_, ?_, ?_, ?_⟩ <;> omega

/-- Year-of-century split of a day-of-century: the year index is in 0..99
and the day-of-year is in 0..365. -/
theorem yoc_split (r : Int) (h0 : 0 ≤ r) (h1 : r ≤ 36524) :
    0 ≤ (4 * r + 3) / 1461 ∧ (4 * r + 3) / 1461 ≤ 99 ∧
    1461 * ((4 * r + 3) / 1461) / 4
      = 365 * ((4 * r + 3) / 1461) + ((4 * r + 3) / 1461) / 4 ∧
    0 ≤ r - 1461 * ((4 * r + 3) / 1461) / 4 ∧
    r - 1461 * ((4 * r + 3) / 1461) / 4 ≤ 365 := by
  refine ⟨?_, ?_, ?_, ?_, ?_⟩ <;> omega

/-- The day-of-era start formula agrees with the century/year-of-century
recomposition. -/
theorem dayOfEra_recompose (c yoc : Int) (hc0 : 0 ≤ c) (hc1 : c ≤ 3)
    (hy0 : 0 ≤ yoc) (hy1 : yoc ≤ 99) :
    (100 * c + yoc) * 365 + (100 * c + yoc) / 4 - (100 * c + yoc) / 100
      = 36524 * c + 365 * yoc + yoc / 4 := by
  omega

/-- Month and day extraction from a (March-based) day-of-year, together with
the facts needed to invert it. -/
theorem month_split (doy : Int) (h0 : 0 ≤ doy) (h1 : doy ≤ 365) :
    let mp := (5 * doy + 2) / 153
    let d := doy - (153 * mp + 2) / 5 + 1
    let m := mp + (if mp < 10 then 3 else -9)
    1 ≤ m ∧ m ≤ 12 ∧ 1 ≤ d ∧ d ≤ 31 ∧
    m + (if 2 < m then -3 else 9) = mp ∧
    ((if m ≤ 2 then (1 : Int) else 0) = if mp < 10 then 0 else 1) ∧
    (153 * mp + 2) / 5 + d - 1 = doy := by
  dsimp only
  split_ifs <;> (refine ⟨?_, ?_, ?_, ?_, ?_, ?_, ?_⟩ <;> omega)

/-- `civilFromDays` produces a month in 1..12 and a day in 1..31, and
`daysFromCivil` maps the produced civil date back to the day number. -/
theorem civilFromDays_roundtrip (n : Int) :
    1 ≤ (civilFromDays n).2.1 ∧ (civilFromDays n).2.1 ≤ 12 ∧
    1 ≤ (civilFromDays n).2.2 ∧ (civilFromDays n).2.2 ≤ 31 ∧
    daysFromCivil (civilFromDays n).1 (civilFromDays n).2.1
      (civilFromDays n).2.2 = n := by
  unfold civilFromDays daysFromCivil
  dsimp only
  set z := n + 719468 with hz
  set era := z / 146097 with hera
  set doe := z - era * 146097 with hdoe
  have hdoe0 : 0 ≤ doe := by omega
  have hdoe1 : doe ≤ 146096 := by omega
  set c := (4 * doe + 3) / 146097 with hc
  obtain ⟨hc0, hc1, hcdiv, hr0, hr1⟩ := century_split doe hdoe0 hdoe1
  rw [← hc] at hc0 hc1 hcdiv hr0 hr1
  set r := doe - 146097 * c / 4 with hrdef
  have hre : r = doe - 36524 * c := by omega
  obtain ⟨hy0, hy1, hydiv, hd0, hd1⟩ := yoc_split r (by omega) (by omega)
  set yoc := (4 * r + 3) / 1461 with hyoc
  set doy := r - 1461 * yoc / 4 with hdoy
  have hdoye : doy = r - 365 * yoc - yoc / 4 := by omega
  obtain ⟨hm1, hm2, hd1', hd2', hmp, hadj, hback⟩ :=
    month_split doy (by omega) (by omega)
  set mp := (5 * doy + 2) / 153 with hmpd
  set d := doy - (153 * mp + 2) / 5 + 1 with hdd
  set m := mp + (if mp < 10 then 3 else -9) with hmd
  set yoe := 100 * c + yoc with hyoe
  set y := yoe + era * 400 with hy
  refine ⟨hm1, hm2, hd1', hd2', ?_⟩
  have hcancel : y + (if m ≤ 2 then (1 : Int) else 0)
      - (if m ≤ 2 then (1 : Int) else 0) = y := by omega
  rw [hcancel, hmp]
  have hde : yoe * 365 + yoe / 4 - yoe / 100
      = 36524 * c + 365 * yoc + yoc / 4 := by
    rw [hyoe]; exact dayOfEra_recompose c yoc hc0 hc1 hy0 hy1
  have hera2 : y / 400 = era := by omega
  rw [hera2]
  have hyoe2 : y - era * 400 = yoe := by omega
  rw [hyoe2, hback]
  omega

/-- For a month already in 1..12, MakeDay reduces to the plain civil day
number. -/
theorem makeDay_of_month_range (y m d : Int) (h1 : 1 ≤ m) (h2 : m ≤ 12) :
    makeDay y (m - 1) d = daysFromCivil y m d := by
  unfold makeDay
  have hdiv : (m - 1) / 12 = 0 := by omega
  have hmod : (m - 1) % 12 = m - 1 := by omega
  rw [hdiv, hmod]
  unfold daysFromCivil
  dsimp only
  split_ifs <;> omega

/-! ## Character-level string model (JS `split`, `\d` tests, number rendering) -/

/-- The regex class `\d`: one ASCII digit. -/
def isDigitCh (c : Char) : Bool := decide (48 ≤ c.toNat ∧ c.toNat ≤ 57)

/-- Numeric value of an ASCII digit. -/
def digitVal (c : Char) : Nat := c.toNat - 48

/-- Decimal value of a big-endian digit string: the JS `Number(...)` of a
string of digits. -/
def digitsVal (l : List Char) : Nat :=
  l.foldl (fun a c => 10 * a + digitVal c) 0

/-- Prepend a character to the first piece of a split result. -/
def consHead (c : Char) : List (List Char) → List (List Char)
  | [] => [[c]]
  | h :: t => (c :: h) :: t

/-- JS `String.prototype.split` with a single-character separator (the
program only splits on `"/"`, `"-"` and `"\n"`). -/
def splitChar (sep : Char) : List Char → List (List Char)
  | [] => [[]]
  | c :: rest =>
    if c = sep then [] :: splitChar sep rest
    else consHead c (splitChar sep rest)

/-- Little-endian digit list of `n`, with explicit fuel (any fuel at least
`n` is enough). -/
def digitsRevFuel : Nat → Nat → List Nat
  | 0, _ => []
  | f + 1, n => if n = 0 then [] else n % 10 :: digitsRevFuel f (n / 10)

/-- ASCII digit character of a digit value. -/
def digitChar (k : Nat) : Char := Char.ofNat (48 + k)

/-- Decimal rendering of a natural number: the JS string template of an
integral non-negative Number. -/
def renderNat (n : Nat) : List Char :=
  if n = 0 then ['0'] else ((digitsRevFuel n n).reverse).map digitChar

/-- Decimal rendering of an integer Number. -/
def renderInt (i : Int) : List Char :=
  if i < 0 then '-' :: renderNat (-i).toNat else renderNat i.toNat

/-- JS `String.prototype.padStart(2, "0")`. -/
def pad2 (l : List Char) : List Char :=
  if 2 ≤ l.length then l else List.replicate (2 - l.length) '0' ++ l

/-! ### Facts about the string model -/

theorem splitChar_of_not_mem (sep : Char) (l : List Char) (h : sep ∉ l) :
    splitChar sep l = [l] := by
  induction l with
  | nil => rfl
  | cons c rest ih =>
    have hc : ¬ c = sep := fun he => h (by simp [he])
    rw [splitChar, if_neg hc, ih (fun hm => h (List.mem_cons_of_mem _ hm))]
    rfl

theorem splitChar_append (sep : Char) (a rest : List Char) (h : sep ∉ a) :
    splitChar sep (a ++ sep :: rest) = a :: splitChar sep rest := by
  induction a with
  | nil => simp [splitChar]
  | cons c tl ih =>
    have hc : ¬ c = sep := fun he => h (by simp [he])
    have ih' := ih (fun hm => h (List.mem_cons_of_mem _ hm))
    rw [List.cons_append, splitChar, if_neg hc, ih']
    rfl

theorem foldl_digits (l : List Char) (a : Nat) :
    l.foldl (fun a c => 10 * a + digitVal c) a
      = a * 10 ^ l.length + digitsVal l := by
  induction l generalizing a with
  | nil => simp [digitsVal]
  | cons c tl ih =>
    simp only [List.foldl_cons, List.length_cons, digitsVal]
    rw [ih (10 * a + digitVal c), ih (10 * 0 + digitVal c)]
    ring

theorem digitVal_lt_of_isDigit (c : Char) (h : isDigitCh c = true) :
    digitVal c < 10 := by
  simp only [isDigitCh, decide_eq_true_eq] at h
  unfold digitVal
  omega

theorem digitsVal_cons (c : Char) (tl : List Char) :
    digitsVal (c :: tl) = digitVal c * 10 ^ tl.length + digitsVal tl := by
  show List.foldl _ _ (c :: tl) = _
  rw [List.foldl_cons, foldl_digits]
  ring_nf

theorem digitsVal_lt (l : List Char) (h : ∀ c ∈ l, isDigitCh c = true) :
    digitsVal l < 10 ^ l.length := by
  induction l with
  | nil => simp [digitsVal]
  | cons c tl ih =>
    have hc := digitVal_lt_of_isDigit c (h c (by simp))
    have htl := ih (fun x hx => h x (List.mem_cons_of_mem _ hx))
    have hmul : digitVal c * 10 ^ tl.length ≤ 9 * 10 ^ tl.length :=
      Nat.mul_le_mul_right _ (by omega)
    rw [digitsVal_cons, List.length_cons, pow_succ]
    omega

theorem digitChar_isDigit (k : Nat) (h : k < 10) :
    isDigitCh (digitChar k) = true := by
  interval_cases k <;> decide

theorem digitVal_digitChar (k : Nat) (h : k < 10) :
    digitVal (digitChar k) = k := by
  interval_cases k <;> decide

theorem digitChar_ne_slash (k : Nat) (h : k < 10) : digitChar k ≠ '/' := by
  interval_cases k <;> decide

theorem digitsRevFuel_val (f : Nat) :
    ∀ n, n ≤ f →
      (digitsRevFuel f n).foldr (fun k a => 10 * a + k) 0 = n ∧
      (∀ k ∈ digitsRevFuel f n, k < 10) := by
  induction f with
  | zero =>
    intro n hn
    have : n = 0 := by omega
    subst this
    simp [digitsRevFuel]
  | succ f ih =>
    intro n hn
    unfold digitsRevFuel
    split_ifs with h0
    · subst h0; simp
    · have hrec : n / 10 ≤ f := by omega
      obtain ⟨hv, hd⟩ := ih (n / 10) hrec
      refine ⟨?_, ?_⟩
      · simp only [List.foldr_cons, hv]
        omega
      · intro k hk
        rcases List.mem_cons.mp hk with he | hm
        · omega
        · exact hd k hm

theorem digitsRevFuel_len (f : Nat) :
    ∀ n L, n ≤ f → ((digitsRevFuel f n).length ≤ L ↔ n < 10 ^ L) := by
  induction f with
  | zero =>
    intro n L hn
    have h0 : n = 0 := by omega
    subst h0
    have hpos : 0 < 10 ^ L := pow_pos (by norm_num) L
    exact ⟨fun _ => hpos, fun _ => Nat.zero_le L⟩
  | succ f ih =>
    intro n L hn
    unfold digitsRevFuel
    split_ifs with h0
    · subst h0
      have hpos : 0 < 10 ^ L := pow_pos (by norm_num) L
      exact ⟨fun _ => hpos, fun _ => Nat.zero_le L⟩
    · have hrec : n / 10 ≤ f := by omega
      cases L with
      | zero =>
        simp only [List.length_cons, pow_zero]
        omega
      | succ L =>
        simp only [List.length_cons, Nat.succ_le_succ_iff]
        rw [ih (n / 10) L hrec, pow_succ]
        omega

theorem foldr_digitChar (dl : List Nat) (h : ∀ k ∈ dl, k < 10) :
    (dl.map digitChar).foldr (fun c a => 10 * a + digitVal c) 0
      = dl.foldr (fun k a => 10 * a + k) 0 := by
  induction dl with
  | nil => rfl
  | cons k tl ih =>
    simp only [List.map_cons, List.foldr_cons]
    rw [ih (fun x hx => h x (List.mem_cons_of_mem _ hx)),
      digitVal_digitChar k (h k (by simp))]

theorem renderNat_val (n : Nat) : digitsVal (renderNat n) = n := by
  unfold renderNat
  split_ifs with h0
  · subst h0; decide
  · obtain ⟨hv, hd⟩ := digitsRevFuel_val n n le_rfl
    show List.foldl _ 0 (((digitsRevFuel n n).reverse).map digitChar) = n
    rw [List.map_reverse, List.foldl_reverse, foldr_digitChar _ hd]
    exact hv

theorem renderNat_digits (n : Nat) :
    ∀ c ∈ renderNat n, isDigitCh c = true := by
  unfold renderNat
  split_ifs with h0
  · intro c hc
    simp only [List.mem_singleton] at hc
    subst hc; decide
  · intro c hc
    obtain ⟨hv, hd⟩ := digitsRevFuel_val n n le_rfl
    simp only [List.mem_map, List.mem_reverse] at hc
    obtain ⟨k, hk, he⟩ := hc
    subst he
    exact digitChar_isDigit k (hd k hk)

theorem not_mem_of_all_digits (l : List Char)
    (h : ∀ c ∈ l, isDigitCh c = true) (c : Char) (hc : isDigitCh c = false) :
    c ∉ l := fun hm => by rw [h c hm] at hc; cases hc

theorem renderNat_length_le (n L : Nat) (hL : 1 ≤ L) :
    ((renderNat n).length ≤ L ↔ n < 10 ^ L) := by
  unfold renderNat
  split_ifs with h0
  · subst h0
    have hpos : 0 < 10 ^ L := pow_pos (by norm_num) L
    exact ⟨fun _ => hpos, fun _ => hL⟩
  · rw [List.length_map, List.length_reverse]
    exact digitsRevFuel_len n n L le_rfl

theorem renderNat_length_pos (n : Nat) : 1 ≤ (renderNat n).length := by
  unfold renderNat
  split_ifs with h0
  · simp
  · rw [List.length_map, List.length_reverse]
    have := digitsRevFuel_len n n 0 le_rfl
    simp only [pow_zero] at this
    omega

/-! ## The date normalizer (`normalizeDate`, `fmtMDY` of src/index.js) -/

/-- The regex test `^\d{1,2}\/\d{1,2}\/\d{4}$` followed by
`input.split("/").map(Number)`: three slash-separated all-digit pieces of
widths 1-2, 1-2 and 4, returned as their numeric values `(m, d, y)`. -/
def parseMDY (s : List Char) : Option (Nat × Nat × Nat) :=
  match splitChar '/' s with
  | [a, b, c] =>
    if 1 ≤ a.length ∧ a.length ≤ 2 ∧ (∀ ch ∈ a, isDigitCh ch = true)
        ∧ 1 ≤ b.length ∧ b.length ≤ 2 ∧ (∀ ch ∈ b, isDigitCh ch = true)
        ∧ c.length = 4 ∧ (∀ ch ∈ c, isDigitCh ch = true)
    then some (digitsVal a, digitsVal b, digitsVal c)
    else none
  | _ => none

/-- The regex test `^\d{4}-\d{2}-\d{2}$` followed by
`input.split("-").map(Number)`: pieces of widths 4, 2 and 2, returned as
`(y, mm, dd)`. -/
def parseISO (s : List Char) : Option (Nat × Nat × Nat) :=
  match splitChar '-' s with
  | [a, b, c] =>
    if a.length = 4 ∧ (∀ ch ∈ a, isDigitCh ch = true)
        ∧ b.length = 2 ∧ (∀ ch ∈ b, isDigitCh ch = true)
        ∧ c.length = 2 ∧ (∀ ch ∈ c, isDigitCh ch = true)
    then some (digitsVal a, digitsVal b, digitsVal c)
    else none
  | _ => none

/-- `fmtMDY` of src/index.js lines 150-155: zero-pad month and day to two
digits, render the year unpadded, join with slashes. Takes the civil triple
`(getFullYear, getMonth＋1, getDate)` of the date being formatted. -/
def fmtMDY (c : Int × Int × Int) : List Char :=
  pad2 (renderInt c.2.1) ++ '/' :: pad2 (renderInt c.2.2) ++ '/' :: renderInt c.1

/-- `normalizeDate` of src/index.js lines 157-176, parameterized by the
third branch (`new Date(input)` on a string, whose accepted formats beyond
the first two shapes are implementation-defined by ECMA-262).
The first branch accepts only if the reconstructed date round-trips to the
parsed components and renders the numeric components unpadded; the second
branch formats whatever date the (rolled-over) constructor produced. -/
def normalizeDateWith (fb : List Char → Option (List Char))
    (input : List Char) : Option (List Char) :=
  match parseMDY input with
  | some (m, d, y) =>
    let days := makeDay (yearAdjust (y : Int)) ((m : Int) - 1) (d : Int)
    if jsDateValid days = true
        ∧ civilFromDays days = ((y : Int), (m : Int), (d : Int))
    then some (renderNat m ++ '/' :: renderNat d ++ '/' :: renderNat y)
    else none
  | none =>
    match parseISO input with
    | some (y, mm, dd) =>
      let days := makeDay (yearAdjust (y : Int)) ((mm : Int) - 1) (dd : Int)
      if jsDateValid days = true then some (fmtMDY (civilFromDays days))
      else none
    | none => fb input

/-- The normalizer with the unexercised general-parser branch mapped to a
failure; every concrete input it is applied to below matches one of the two
regex shapes, so the fallback is never consulted. -/
def normalizeDate : List Char → Option (List Char) :=
  normalizeDateWith (fun _ => none)

/-! ### Inversion of the split and of the two shape parsers -/

theorem splitChar_ne_nil (sep : Char) (l : List Char) :
    splitChar sep l ≠ [] := by
  induction l with
  | nil => simp [splitChar]
  | cons c rest ih =>
    rw [splitChar]
    split_ifs
    · simp
    · unfold consHead
      rcases splitChar sep rest with _ | ⟨h1, t⟩ <;> simp

theorem splitChar_eq_one (sep : Char) (s : List Char) :
    ∀ a, splitChar sep s = [a] → s = a ∧ sep ∉ a := by
  induction s with
  | nil =>
    intro a h
    rw [splitChar] at h
    injection h with h1 h2
    subst h1
    simp
  | cons c rest ih =>
    intro a h
    rw [splitChar] at h
    split_ifs at h with hc
    · injection h with h1 h2
      exact absurd h2 (splitChar_ne_nil sep rest)
    · rcases hr : splitChar sep rest with _ | ⟨p1, t⟩
      · exact absurd hr (splitChar_ne_nil sep rest)
      · rw [hr] at h
        simp only [consHead] at h
        injection h with h2 h3
        subst h2
        subst h3
        obtain ⟨he, hm⟩ := ih p1 hr
        subst he
        refine ⟨rfl, ?_⟩
        intro hmem
        rcases List.mem_cons.mp hmem with h4 | h4
        · exact hc h4.symm
        · exact hm h4

theorem splitChar_eq_two (sep : Char) (s : List Char) :
    ∀ a b, splitChar sep s = [a, b] →
      s = a ++ sep :: b ∧ sep ∉ a ∧ sep ∉ b := by
  induction s with
  | nil =>
    intro a b h
    rw [splitChar] at h
    injection h with h1 h2
    cases h2
  | cons c rest ih =>
    intro a b h
    rw [splitChar] at h
    split_ifs at h with hc
    · injection h with h1 h2
      subst h1
      obtain ⟨he, hm⟩ := splitChar_eq_one sep rest b h2
      subst he
      subst hc
      exact ⟨rfl, by simp, hm⟩
    · rcases hr : splitChar sep rest with _ | ⟨p1, t⟩
      · exact absurd hr (splitChar_ne_nil sep rest)
      · rw [hr] at h
        simp only [consHead] at h
        injection h with h2 h3
        subst h2
        rw [h3] at hr
        obtain ⟨he, hma, hmb⟩ := ih p1 b hr
        subst he
        refine ⟨rfl, ?_, hmb⟩
        intro hmem
        rcases List.mem_cons.mp hmem with h4 | h4
        · exact hc h4.symm
        · exact hma h4

theorem splitChar_eq_three (sep : Char) (s : List Char) :
    ∀ a b c, splitChar sep s = [a, b, c] →
      s = a ++ sep :: b ++ sep :: c ∧ sep ∉ a ∧ sep ∉ b ∧ sep ∉ c := by
  induction s with
  | nil =>
    intro a b c h
    rw [splitChar] at h
    injection h with h1 h2
    cases h2
  | cons c0 rest ih =>
    intro a b c h
    rw [splitChar] at h
    split_ifs at h with hc
    · injection h with h1 h2
      subst h1
      obtain ⟨he, hmb, hmc⟩ := splitChar_eq_two sep rest b c h2
      subst he
      subst hc
      exact ⟨rfl, by simp, hmb, hmc⟩
    · rcases hr : splitChar sep rest with _ | ⟨p1, t⟩
      · exact absurd hr (splitChar_ne_nil sep rest)
      · rw [hr] at h
        simp only [consHead] at h
        injection h with h2 h3
        subst h2
        rw [h3] at hr
        obtain ⟨he, hma, hmb, hmc⟩ := ih p1 b c hr
        subst he
        refine ⟨rfl, ?_, hmb, hmc⟩
        intro hmem
        rcases List.mem_cons.mp hmem with h4 | h4
        · exact hc h4.symm
        · exact hma h4

theorem parseMDY_of_split3 (s a b c : List Char)
    (hs : splitChar '/' s = [a, b, c]) :
    parseMDY s =
      if 1 ≤ a.length ∧ a.length ≤ 2 ∧ (∀ ch ∈ a, isDigitCh ch = true)
          ∧ 1 ≤ b.length ∧ b.length ≤ 2 ∧ (∀ ch ∈ b, isDigitCh ch = true)
          ∧ c.length = 4 ∧ (∀ ch ∈ c, isDigitCh ch = true)
      then some (digitsVal a, digitsVal b, digitsVal c)
      else none := by
  unfold parseMDY
  rw [hs]

theorem parseMDY_of_split_ne3 (s : List Char) (parts : List (List Char))
    (hs : splitChar '/' s = parts) (hlen : parts.length ≠ 3) :
    parseMDY s = none := by
  unfold parseMDY
  rw [hs]
  rcases parts with _ | ⟨a, _ | ⟨b, _ | ⟨c, _ | ⟨d4, t⟩⟩⟩⟩
  · rfl
  · rfl
  · rfl
  · simp at hlen
  · rfl

theorem parseISO_of_split3 (s a b c : List Char)
    (hs : splitChar '-' s = [a, b, c]) :
    parseISO s =
      if a.length = 4 ∧ (∀ ch ∈ a, isDigitCh ch = true)
          ∧ b.length = 2 ∧ (∀ ch ∈ b, isDigitCh ch = true)
          ∧ c.length = 2 ∧ (∀ ch ∈ c, isDigitCh ch = true)
      then some (digitsVal a, digitsVal b, digitsVal c)
      else none := by
  unfold parseISO
  rw [hs]

theorem parseISO_of_split_ne3 (s : List Char) (parts : List (List Char))
    (hs : splitChar '-' s = parts) (hlen : parts.length ≠ 3) :
    parseISO s = none := by
  unfold parseISO
  rw [hs]
  rcases parts with _ | ⟨a, _ | ⟨b, _ | ⟨c, _ | ⟨d4, t⟩⟩⟩⟩
  · rfl
  · rfl
  · rfl
  · simp at hlen
  · rfl

theorem parseMDY_inv (s : List Char) (m d y : Nat)
    (h : parseMDY s = some (m, d, y)) :
    ∃ a b c, splitChar '/' s = [a, b, c]
      ∧ (1 ≤ a.length ∧ a.length ≤ 2 ∧ (∀ ch ∈ a, isDigitCh ch = true)
          ∧ 1 ≤ b.length ∧ b.length ≤ 2 ∧ (∀ ch ∈ b, isDigitCh ch = true)
          ∧ c.length = 4 ∧ (∀ ch ∈ c, isDigitCh ch = true))
      ∧ digitsVal a = m ∧ digitsVal b = d ∧ digitsVal c = y := by
  rcases hs : splitChar '/' s with _ | ⟨a, _ | ⟨b, _ | ⟨c, _ | ⟨d4, t⟩⟩⟩⟩
  · rw [parseMDY_of_split_ne3 s _ hs (by simp)] at h; cases h
  · rw [parseMDY_of_split_ne3 s _ hs (by simp)] at h; cases h
  · rw [parseMDY_of_split_ne3 s _ hs (by simp)] at h; cases h
  · rw [parseMDY_of_split3 s a b c hs] at h
    split_ifs at h with hcond
    · injection h with h9
      injection h9 with hm h10
      injection h10 with hd hy
      exact ⟨a, b, c, rfl, hcond, hm, hd, hy⟩
  · rw [parseMDY_of_split_ne3 s _ hs (by simp)] at h; cases h

theorem parseISO_inv (s : List Char) (y mm dd : Nat)
    (h : parseISO s = some (y, mm, dd)) :
    ∃ a b c, splitChar '-' s = [a, b, c]
      ∧ (a.length = 4 ∧ (∀ ch ∈ a, isDigitCh ch = true)
          ∧ b.length = 2 ∧ (∀ ch ∈ b, isDigitCh ch = true)
          ∧ c.length = 2 ∧ (∀ ch ∈ c, isDigitCh ch = true))
      ∧ digitsVal a = y ∧ digitsVal b = mm ∧ digitsVal c = dd := by
  rcases hs : splitChar '-' s with _ | ⟨a, _ | ⟨b, _ | ⟨c, _ | ⟨d4, t⟩⟩⟩⟩
  · rw [parseISO_of_split_ne3 s _ hs (by simp)] at h; cases h
  · rw [parseISO_of_split_ne3 s _ hs (by simp)] at h; cases h
  · rw [parseISO_of_split_ne3 s _ hs (by simp)] at h; cases h
  · rw [parseISO_of_split3 s a b c hs] at h
    split_ifs at h with hcond
    · injection h with h9
      injection h9 with hm h10
      injection h10 with hd hy
      exact ⟨a, b, c, rfl, hcond, hm, hd, hy⟩
  · rw [parseISO_of_split_ne3 s _ hs (by simp)] at h; cases h

theorem pow_ten_two : (10 : Nat) ^ 2 = 100 := by norm_num

theorem pow_ten_four : (10 : Nat) ^ 4 = 10000 := by norm_num

theorem parseMDY_bounds (s : List Char) (m d y : Nat)
    (h : parseMDY s = some (m, d, y)) :
    m ≤ 99 ∧ d ≤ 99 ∧ y ≤ 9999 := by
  obtain ⟨a, b, c, hs, ⟨h1, h2, h3, h4, h5, h6, h7, h8⟩, hm, hd, hy⟩ :=
    parseMDY_inv s m d y h
  have ha := digitsVal_lt a h3
  have hb := digitsVal_lt b h6
  have hc := digitsVal_lt c h8
  have hpa : (10 : Nat) ^ a.length ≤ 10 ^ 2 :=
    Nat.pow_le_pow_right (by norm_num) h2
  have hpb : (10 : Nat) ^ b.length ≤ 10 ^ 2 :=
    Nat.pow_le_pow_right (by norm_num) h5
  rw [pow_ten_two] at hpa hpb
  rw [h7, pow_ten_four] at hc
  omega

theorem parseISO_bounds (s : List Char) (y mm dd : Nat)
    (h : parseISO s = some (y, mm, dd)) :
    y ≤ 9999 ∧ mm ≤ 99 ∧ dd ≤ 99 := by
  obtain ⟨a, b, c, hs, ⟨h1, h2, h3, h4, h5, h6⟩, hy, hm, hd⟩ :=
    parseISO_inv s y mm dd h
  have ha := digitsVal_lt a h2
  have hb := digitsVal_lt b h4
  have hc := digitsVal_lt c h6
  rw [h1, pow_ten_four] at ha
  rw [h3, pow_ten_two] at hb
  rw [h5, pow_ten_two] at hc
  omega

/-- An input accepted by the ISO shape contains no slash, so the first
regex of `normalizeDate` does not match it. -/
theorem parseISO_parseMDY_none (s : List Char) (y mm dd : Nat)
    (h : parseISO s = some (y, mm, dd)) : parseMDY s = none := by
  obtain ⟨a, b, c, hs, ⟨h1, h2, h3, h4, h5, h6⟩, hy, hm, hd⟩ :=
    parseISO_inv s y mm dd h
  obtain ⟨he, hna, hnb, hnc⟩ := splitChar_eq_three '-' s a b c hs
  have hall : ∀ ch ∈ s, isDigitCh ch = true ∨ ch = '-' := by
    subst he
    intro ch hm0
    rcases List.mem_append.mp hm0 with hx1 | hx1
    · rcases List.mem_append.mp hx1 with hx2 | hx2
      · exact Or.inl (h2 ch hx2)
      · rcases List.mem_cons.mp hx2 with hx3 | hx3
        · exact Or.inr hx3
        · exact Or.inl (h4 ch hx3)
    · rcases List.mem_cons.mp hx1 with hx2 | hx2
      · exact Or.inr hx2
      · exact Or.inl (h6 ch hx2)
  have hslash : '/' ∉ s := by
    intro hmem
    rcases hall '/' hmem with hx | hx
    · exact absurd hx (by decide)
    · exact absurd hx (by decide)
  exact parseMDY_of_split_ne3 s [s] (splitChar_of_not_mem '/' s hslash)
    (by simp)

/-! ### Re-parsing rendered dates -/

theorem renderNat_length_two (n : Nat) (h : n ≤ 99) :
    1 ≤ (renderNat n).length ∧ (renderNat n).length ≤ 2 :=
  ⟨renderNat_length_pos n,
    (renderNat_length_le n 2 (by norm_num)).mpr (by rw [pow_ten_two]; omega)⟩

theorem renderNat_length_four (y : Nat) (h1 : 1000 ≤ y) (h2 : y ≤ 9999) :
    (renderNat y).length = 4 := by
  have hle : (renderNat y).length ≤ 4 :=
    (renderNat_length_le y 4 (by norm_num)).mpr (by rw [pow_ten_four]; omega)
  have hgt : ¬ ((renderNat y).length ≤ 3) := by
    intro hc
    have := (renderNat_length_le y 3 (by norm_num)).mp hc
    have h3 : (10 : Nat) ^ 3 = 1000 := by norm_num
    omega
  omega

theorem parseMDY_render (m d y : Nat) (hm : m ≤ 99) (hd : d ≤ 99)
    (hy1 : 1000 ≤ y) (hy2 : y ≤ 9999) :
    parseMDY (renderNat m ++ '/' :: renderNat d ++ '/' :: renderNat y)
      = some (m, d, y) := by
  have hnm := not_mem_of_all_digits _ (renderNat_digits m) '/' (by decide)
  have hnd := not_mem_of_all_digits _ (renderNat_digits d) '/' (by decide)
  have hny := not_mem_of_all_digits _ (renderNat_digits y) '/' (by decide)
  have hsplit : splitChar '/' (renderNat m ++ '/' :: renderNat d ++ '/' :: renderNat y)
      = [renderNat m, renderNat d, renderNat y] := by
    rw [List.append_assoc, List.cons_append, splitChar_append _ _ _ hnm,
      splitChar_append _ _ _ hnd, splitChar_of_not_mem _ _ hny]
  rw [parseMDY_of_split3 _ _ _ _ hsplit]
  rw [if_pos ⟨(renderNat_length_two m hm).1, (renderNat_length_two m hm).2,
    renderNat_digits m, (renderNat_length_two d hd).1,
    (renderNat_length_two d hd).2, renderNat_digits d,
    renderNat_length_four y hy1 hy2, renderNat_digits y⟩]
  rw [renderNat_val, renderNat_val, renderNat_val]

theorem pad2_spec (l : List Char) (h1 : 1 ≤ l.length) (h2 : l.length ≤ 2)
    (hd : ∀ c ∈ l, isDigitCh c = true) :
    (pad2 l).length = 2 ∧ (∀ c ∈ pad2 l, isDigitCh c = true)
      ∧ digitsVal (pad2 l) = digitsVal l ∧ '/' ∉ pad2 l := by
  unfold pad2
  split_ifs with h
  · exact ⟨by omega, hd, rfl, not_mem_of_all_digits l hd '/' (by decide)⟩
  · have hlen : l.length = 1 := by omega
    have hrep : 2 - l.length = 1 := by omega
    rw [hrep, List.replicate_one, List.singleton_append]
    have hd' : ∀ c ∈ '0' :: l, isDigitCh c = true := by
      intro c hc
      rcases List.mem_cons.mp hc with he | hm2
      · subst he; decide
      · exact hd c hm2
    refine ⟨by simp [hlen], hd', ?_, not_mem_of_all_digits _ hd' '/' (by decide)⟩
    rw [digitsVal_cons]
    have : digitVal '0' = 0 := by decide
    rw [this]
    ring

theorem parseMDY_render_padded (m d y : Nat) (hm : m ≤ 99) (hd : d ≤ 99)
    (hy1 : 1000 ≤ y) (hy2 : y ≤ 9999) :
    parseMDY (pad2 (renderNat m) ++ '/' :: pad2 (renderNat d)
        ++ '/' :: renderNat y) = some (m, d, y) := by
  obtain ⟨hlm, hdm, hvm, hnm⟩ := pad2_spec (renderNat m)
    (renderNat_length_two m hm).1 (renderNat_length_two m hm).2
    (renderNat_digits m)
  obtain ⟨hld, hdd, hvd, hnd⟩ := pad2_spec (renderNat d)
    (renderNat_length_two d hd).1 (renderNat_length_two d hd).2
    (renderNat_digits d)
  have hny := not_mem_of_all_digits _ (renderNat_digits y) '/' (by decide)
  have hsplit : splitChar '/' (pad2 (renderNat m) ++ '/' :: pad2 (renderNat d)
        ++ '/' :: renderNat y)
      = [pad2 (renderNat m), pad2 (renderNat d), renderNat y] := by
    rw [List.append_assoc, List.cons_append, splitChar_append _ _ _ hnm,
      splitChar_append _ _ _ hnd, splitChar_of_not_mem _ _ hny]
  rw [parseMDY_of_split3 _ _ _ _ hsplit]
  rw [if_pos ⟨by omega, by omega, hdm, by omega, by omega, hdd,
    renderNat_length_four y hy1 hy2, renderNat_digits y⟩]
  rw [hvm, hvd, renderNat_val, renderNat_val, renderNat_val]

theorem renderInt_nonneg (i : Int) (h : 0 ≤ i) :
    renderInt i = renderNat i.toNat := by
  unfold renderInt
  rw [if_neg (by omega)]

/-! ### Evaluating the two regex branches of the normalizer -/

theorem normalizeDateWith_mdy (fb : List Char → Option (List Char))
    (s : List Char) (m d y : Nat) (h : parseMDY s = some (m, d, y)) :
    normalizeDateWith fb s =
      if jsDateValid (makeDay (yearAdjust (y : Int)) ((m : Int) - 1) (d : Int)) = true
          ∧ civilFromDays (makeDay (yearAdjust (y : Int)) ((m : Int) - 1) (d : Int))
            = ((y : Int), (m : Int), (d : Int))
      then some (renderNat m ++ '/' :: renderNat d ++ '/' :: renderNat y)
      else none := by
  unfold normalizeDateWith
  rw [h]

theorem normalizeDateWith_iso (fb : List Char → Option (List Char))
    (s : List Char) (y mm dd : Nat) (h : parseISO s = some (y, mm, dd)) :
    normalizeDateWith fb s =
      if jsDateValid (makeDay (yearAdjust (y : Int)) ((mm : Int) - 1) (dd : Int)) = true
      then some (fmtMDY (civilFromDays
        (makeDay (yearAdjust (y : Int)) ((mm : Int) - 1) (dd : Int))))
      else none := by
  unfold normalizeDateWith
  rw [parseISO_parseMDY_none s y mm dd h, h]

/-- Core fixed-point argument: an unpadded rendered date whose components
are accepted by the slash branch normalizes to itself. -/
theorem mdy_render_accept (fb : List Char → Option (List Char))
    (m d y : Nat) (hm : m ≤ 99) (hd : d ≤ 99)
    (hy1 : 1000 ≤ y) (hy2 : y ≤ 9999)
    (hvalid : jsDateValid (makeDay (yearAdjust (y : Int)) ((m : Int) - 1) (d : Int)) = true)
    (hcivil : civilFromDays (makeDay (yearAdjust (y : Int)) ((m : Int) - 1) (d : Int))
      = ((y : Int), (m : Int), (d : Int))) :
    normalizeDateWith fb (renderNat m ++ '/' :: renderNat d ++ '/' :: renderNat y)
      = some (renderNat m ++ '/' :: renderNat d ++ '/' :: renderNat y) := by
  rw [normalizeDateWith_mdy fb _ m d y (parseMDY_render m d y hm hd hy1 hy2)]
  rw [if_pos ⟨hvalid, hcivil⟩]

/-! ### Range facts for the constructor model -/

theorem yearAdjust_range (y : Int) (h0 : 0 ≤ y) (h1 : y ≤ 9999) :
    100 ≤ yearAdjust y ∧ yearAdjust y ≤ 9999 := by
  unfold yearAdjust
  split_ifs <;> omega

theorem makeDay_valid_range (y m dt : Int) (hy1 : 100 ≤ y) (hy2 : y ≤ 9999)
    (hm1 : -1 ≤ m) (hm2 : m ≤ 98) (hd1 : 0 ≤ dt) (hd2 : dt ≤ 99) :
    jsDateValid (makeDay y m dt) = true := by
  unfold makeDay daysFromCivil jsDateValid
  dsimp only
  split_ifs <;> (simp only [decide_eq_true_eq]; constructor <;> omega)

/-! ## Payout rows and the operations of the `DB` object (src/index.js 57-117) -/

/-- A payout row as mapped by `mapRow`: camelCase fields, nullable columns
as `Option`. -/
structure Row where
  id : Int
  messageId : Option String
  channelId : Option String
  robloxUser : String
  amount : Int
  reason : String
  status : String
  requestedById : Option String
  actedById : Option String
  createdAt : Int
  updatedAt : Int
  dueAt : Option Int
deriving DecidableEq

/-- `DB.insertPayout`: a fresh row with status OPEN, no card link, no actor,
`created_at = updated_at = now` and `due_at` NULL (absent from the column
list). `id` is the serial key assigned by the database. -/
def insertPayout (robloxUser : String) (amount : Int) (reason : String)
    (requestedById : String) (now : Int) (id : Int) : Row :=
  { id := id
    messageId := none
    channelId := none
    robloxUser := robloxUser
    amount := amount
    reason := reason
    status := "OPEN"
    requestedById := some requestedById
    actedById := none
    createdAt := now
    updatedAt := now
    dueAt := none }

/-- `DB.updateStatus`: sets status, actor, `updated_at` and `due_at`
(the latter defaulting to NULL at the call sites that omit it). -/
def updateStatus (status actedById : String) (now : Int) (dueAt : Option Int)
    (r : Row) : Row :=
  { r with status := status, actedById := some actedById,
           updatedAt := now, dueAt := dueAt }

/-- `DB.setMessageLink`: attach the card message and channel ids. -/
def setMessageLink (messageId channelId : String) (r : Row) : Row :=
  { r with messageId := some messageId, channelId := some channelId }

/-- `DB.reopenAndDetach`: status back to OPEN, message id cleared, channel
id overwritten with the passed channel hint, `due_at` cleared. -/
def reopenAndDetach (channelId : String) (now : Int) (r : Row) : Row :=
  { r with status := "OPEN", messageId := none, channelId := some channelId,
           updatedAt := now, dueAt := none }

/-- The WHERE predicate of `DB.getDueCooldowns`:
`status = COOLDOWN AND due_at IS NOT NULL AND due_at <= now`. -/
def dueCooldownQuery (now : Int) (r : Row) : Bool :=
  r.status == "COOLDOWN" &&
    (match r.dueAt with
     | some dueAt => decide (dueAt ≤ now)
     | none => false)

/-! ## The button handler (src/index.js 289-325) -/

def BUTTONS_PAY : String := "payout:pay"

def BUTTONS_COOLDOWN : String := "payout:cooldown"

def BUTTONS_DECLINE : String := "payout:decline"

/-- The PAY branch: `updateStatus` to PAID, `dueAt` left at its NULL
default. -/
def payAction (actor : String) (now : Int) (r : Row) : Row :=
  updateStatus "PAID" actor now none r

/-- The DECLINE branch. -/
def declineAction (actor : String) (now : Int) (r : Row) : Row :=
  updateStatus "DECLINED" actor now none r

/-- The COOLDOWN branch: `dueAt = now + 14 * 24 * 60 * 60 * 1000`. -/
def cooldownAction (actor : String) (now : Int) (r : Row) : Row :=
  updateStatus "COOLDOWN" actor now (some (now + 14 * 24 * 60 * 60 * 1000)) r

/-- The if/else chain of the button handler applied to the row found for
the card, after the permission gate. The handler consults only the custom
id, never the current status. `none` models the handler falling through
with `updated` undefined (a forged `payout:`-prefixed id). -/
def handleButton (customId actor : String) (now : Int) (r : Row) : Option Row :=
  if customId = BUTTONS_PAY then some (payAction actor now r)
  else if customId = BUTTONS_DECLINE then some (declineAction actor now r)
  else if customId = BUTTONS_COOLDOWN then some (cooldownAction actor now r)
  else none

/-- `row.channelId || process.env.PAYOUT_LOGS_CHANNEL_ID` in the sweep:
JS falsy test, so NULL and the empty string both fall back. -/
def sweepChannelId (defaultChan : String) (r : Row) : String :=
  match r.channelId with
  | some cid => if cid = "" then defaultChan else cid
  | none => defaultChan

/-- One row-mutating operation of the system: a button event on the row's
card, the card-link attachment after posting, or the requeue sweep's
reopen. These are the only writers of a payouts row in the source. -/
inductive Act where
  | button (customId actor : String) (now : Int)
  | setLink (messageId channelId : String)
  | reopen (channelId : String) (now : Int)

def applyAct : Act → Row → Option Row
  | Act.button cid actor now, r => handleButton cid actor now r
  | Act.setLink mid cid, r => some (setMessageLink mid cid r)
  | Act.reopen cid now, r => some (reopenAndDetach cid now r)

/-- Rows reachable from creation by form submission followed by any
sequence of operations. -/
inductive Reachable : Row → Prop
  | init (robloxUser : String) (amount : Int) (reason : String)
      (requestedById : String) (now id : Int) :
      Reachable (insertPayout robloxUser amount reason requestedById now id)
  | step (a : Act) (r r' : Row) (hr : Reachable r)
      (ha : applyAct a r = some r') : Reachable r'

/-! ## Permission check (src/index.js 136-147) -/

/-- The caller data the check consults: `member.permissions?.has(ManageGuild)`
(absent when `permissions` is undefined) and the role-id key set of
`member.roles?.cache` (absent when `roles` is undefined). -/
structure Member where
  managePermission : Option Bool
  roles : Option (List String)

/-- `ALLOWED_ROLE_IDS`: split the env string on commas, trim, drop empties
(`filter(Boolean)`). -/
def parseAllowedRoleIds (env : String) : List String :=
  ((env.splitOn ",").map (fun t => t.trim)).filter (fun t => t != "")

/-- `hasPayoutPermission`: `false` for a missing member; `true` on the
manage permission; otherwise `false` for an empty allow-list, else a role
intersection test. -/
def hasPayoutPermission (allowedRoleIds : List String)
    (member : Option Member) : Bool :=
  match member with
  | none => false
  | some mem =>
    if mem.managePermission.getD false then true
    else if allowedRoleIds.length = 0 then false
    else allowedRoleIds.any (fun rid => (mem.roles.getD []).contains rid)

/-! ## Amount validation of the modal submit handler (src/index.js 255-262) -/

/-- The whitespace skipped by `trim` and `parseInt` (ASCII subset; the
inputs of interest contain none). -/
def jsWhitespace (c : Char) : Bool :=
  c == ' ' || c == '\t' || c == '\n' || c == '\r'

/-- JS `String.prototype.trim`. -/
def trimJS (l : List Char) : List Char :=
  ((l.dropWhile jsWhitespace).reverse.dropWhile jsWhitespace).reverse

/-- Longest leading digit run, or NaN when it is empty. -/
def digitsPrefix (l : List Char) : Option Nat :=
  let ds := l.takeWhile isDigitCh
  if ds.isEmpty then none else some (digitsVal ds)

/-- ECMA-262 `parseInt(s, 10)`: skip whitespace, optional sign, value of
the longest digit prefix, NaN when there is none. (The amounts of interest
are far below 2^53, so Number arithmetic on them is exact.) -/
def parseIntJS (l : List Char) : Option Int :=
  match l.dropWhile jsWhitespace with
  | '-' :: rest => (digitsPrefix rest).map (fun n => -(n : Int))
  | '+' :: rest => (digitsPrefix rest).map (fun n => (n : Int))
  | rest => (digitsPrefix rest).map (fun n => (n : Int))

/-- Lines 255-262: `parseInt(amountRaw.trim(), 10)` rejected (ephemeral
reply, no row) iff NaN or `<= 0`; otherwise the parsed amount is used for
the inserted row. -/
def modalAmount (input : List Char) : Option Int :=
  match parseIntJS (trimJS input) with
  | none => none
  | some a => if a ≤ 0 then none else some a

/-! ## Sample rows used by witnesses and counterexamples -/

def sampleRow : Row :=
  insertPayout "tester" 100 "Date: 1/2/2025\nEvent: rally" "requester" 1000 1

def paidRow : Row := payAction "approver" 2000 sampleRow

/-! ## Claims -/

/-- C2: for every row, a Pay button event followed by a Decline button event
(each handled, i.e. each taking a `some` branch of the handler) leaves the
row DECLINED: the last transition wins and the handler has no guard on the
current status. -/
theorem c2_pay_then_decline (r : Row) (a1 a2 : String) (n1 n2 : Int) :
    handleButton BUTTONS_PAY a1 n1 r = some (payAction a1 n1 r)
    ∧ handleButton BUTTONS_DECLINE a2 n2 (payAction a1 n1 r)
        = some (declineAction a2 n2 (payAction a1 n1 r))
    ∧ (declineAction a2 n2 (payAction a1 n1 r)).status = "DECLINED" := by
  refine ⟨?_, ?_, rfl⟩
  · unfold handleButton
    rw [if_pos rfl]
  · unfold handleButton
    rw [if_neg (by decide : ¬ BUTTONS_DECLINE = BUTTONS_PAY), if_pos rfl]

theorem c2_pay_then_decline_witness :
    (declineAction "second" 3000 (payAction "first" 2000 sampleRow)).status
      = "DECLINED" :=
  (c2_pay_then_decline sampleRow "first" "second" 2000 3000).2.2

/-- C6: for every reachable row, `dueAt` is non-null iff the status is
COOLDOWN; every operation (insert, the three button updates, card-link
attachment, requeue reopen) preserves this. -/
theorem c6_dueAt_iff_cooldown (r : Row) (h : Reachable r) :
    (r.dueAt ≠ none ↔ r.status = "COOLDOWN") := by
  induction h with
  | init ru amt rsn req now id => simp [insertPayout]
  | step a r r' hr ha ih =>
    cases a with
    | button cid actor now =>
      simp only [applyAct, handleButton] at ha
      split_ifs at ha with h1 h2 h3
      · injection ha with he
        subst he
        simp [payAction, updateStatus]
      · injection ha with he
        subst he
        simp [declineAction, updateStatus]
      · injection ha with he
        subst he
        simp [cooldownAction, updateStatus]
    | setLink mid cid =>
      simp only [applyAct] at ha
      injection ha with he
      subst he
      exact ih
    | reopen cid now =>
      simp only [applyAct] at ha
      injection ha with he
      subst he
      simp [reopenAndDetach]

theorem c6_dueAt_iff_cooldown_witness :
    (sampleRow.dueAt ≠ none ↔ sampleRow.status = "COOLDOWN") :=
  c6_dueAt_iff_cooldown sampleRow
    (Reachable.init "tester" 100 "Date: 1/2/2025\nEvent: rally" "requester"
      1000 1)

/-- C7: a row put on cooldown at time T stores
`dueAt = T + 14 * 86400000` (the source's `14 * 24 * 60 * 60 * 1000`), and
the due-cooldown query with `now = T + 14 * 86400000` selects it. -/
theorem c7_cooldown_due (r : Row) (actor : String) (T : Int) :
    (cooldownAction actor T r).dueAt = some (T + 14 * 86400000)
    ∧ dueCooldownQuery (T + 14 * 86400000) (cooldownAction actor T r) = true := by
  constructor
  · show some (T + 14 * 24 * 60 * 60 * 1000) = some (T + 14 * 86400000)
    norm_num
  · unfold dueCooldownQuery cooldownAction updateStatus
    dsimp only
    rw [Bool.and_eq_true]
    refine ⟨rfl, ?_⟩
    simp only [decide_eq_true_eq]
    omega

theorem c7_cooldown_due_witness :
    (cooldownAction "approver" 0 sampleRow).dueAt = some 1209600000
    ∧ dueCooldownQuery 1209600000 (cooldownAction "approver" 0 sampleRow) = true :=
  c7_cooldown_due sampleRow "approver" 0

/-- C8: after `reopenAndDetach(id, channelId, now)` the row is OPEN, its
message id is cleared while the passed channel hint is stored, `dueAt` is
cleared, and the row no longer satisfies the due-cooldown query predicate
at any time, so a subsequent sweep tick cannot pick it up again. -/
theorem c8_reopen_detach (r : Row) (channelId : String) (now : Int) :
    (reopenAndDetach channelId now r).status = "OPEN"
    ∧ (reopenAndDetach channelId now r).messageId = none
    ∧ (reopenAndDetach channelId now r).channelId = some channelId
    ∧ (reopenAndDetach channelId now r).dueAt = none
    ∧ ∀ now2, dueCooldownQuery now2 (reopenAndDetach channelId now r) = false := by
  refine ⟨rfl, rfl, rfl, rfl, ?_⟩
  intro now2
  rfl

theorem c8_reopen_detach_witness :
    (reopenAndDetach "chan" 99 (cooldownAction "approver" 0 sampleRow)).status
      = "OPEN"
    ∧ (reopenAndDetach "chan" 99 (cooldownAction "approver" 0 sampleRow)).messageId
      = none
    ∧ (reopenAndDetach "chan" 99 (cooldownAction "approver" 0 sampleRow)).channelId
      = some "chan"
    ∧ (reopenAndDetach "chan" 99 (cooldownAction "approver" 0 sampleRow)).dueAt
      = none
    ∧ ∀ now2, dueCooldownQuery now2
        (reopenAndDetach "chan" 99 (cooldownAction "approver" 0 sampleRow)) = false :=
  c8_reopen_detach (cooldownAction "approver" 0 sampleRow) "chan" 99

/-- C1 (amended): every reachable row has status OPEN, PAID, DECLINED or
COOLDOWN, and an operation yields an OPEN row only when the row was already
OPEN or the operation is the requeue sweep reopen; however the button
handler is not guarded on OPEN, so PAID and DECLINED are not terminal
(see the counterexample). -/
theorem c1_status_invariant_amended :
    (∀ r, Reachable r → r.status = "OPEN" ∨ r.status = "PAID"
      ∨ r.status = "DECLINED" ∨ r.status = "COOLDOWN")
    ∧ (∀ a r r2, applyAct a r = some r2 → r2.status = "OPEN" →
        r.status = "OPEN" ∨ ∃ cid now, a = Act.reopen cid now) := by
  constructor
  · intro r h
    induction h with
    | init ru amt rsn req now id => left; rfl
    | step a r r2 hr ha ih =>
      cases a with
      | button cid actor now =>
        simp only [applyAct, handleButton] at ha
        split_ifs at ha with h1 h2 h3
        · injection ha with he
          subst he
          right; left; rfl
        · injection ha with he
          subst he
          right; right; left; rfl
        · injection ha with he
          subst he
          right; right; right; rfl
      | setLink mid cid =>
        simp only [applyAct] at ha
        injection ha with he
        subst he
        exact ih
      | reopen cid now =>
        simp only [applyAct] at ha
        injection ha with he
        subst he
        left; rfl
  · intro a r r2 ha hopen
    cases a with
    | button cid actor now =>
      simp only [applyAct, handleButton] at ha
      split_ifs at ha with h1 h2 h3
      · injection ha with he
        subst he
        have hco : ("PAID" : String) = "OPEN" := hopen
        exact absurd hco (by decide)
      · injection ha with he
        subst he
        have hco : ("DECLINED" : String) = "OPEN" := hopen
        exact absurd hco (by decide)
      · injection ha with he
        subst he
        have hco : ("COOLDOWN" : String) = "OPEN" := hopen
        exact absurd hco (by decide)
    | setLink mid cid =>
      simp only [applyAct] at ha
      injection ha with he
      subst he
      exact Or.inl hopen
    | reopen cid now =>
      exact Or.inr ⟨cid, now, rfl⟩

theorem c1_status_invariant_amended_witness :
    sampleRow.status = "OPEN" ∨ sampleRow.status = "PAID"
    ∨ sampleRow.status = "DECLINED" ∨ sampleRow.status = "COOLDOWN" :=
  c1_status_invariant_amended.1 sampleRow
    (Reachable.init "tester" 100 "Date: 1/2/2025\nEvent: rally" "requester"
      1000 1)

/-- C1 counterexample: a reachable PAID row is changed to DECLINED by a
further Decline button event, so PAID is not terminal and a transition
fires on a non-OPEN row. -/
theorem c1_terminal_counterexample :
    Reachable paidRow ∧ paidRow.status = "PAID"
    ∧ applyAct (Act.button BUTTONS_DECLINE "second" 3000) paidRow
        = some (declineAction "second" 3000 paidRow)
    ∧ (declineAction "second" 3000 paidRow).status = "DECLINED"
    ∧ (declineAction "second" 3000 paidRow).status ≠ "PAID" := by
  refine ⟨?_, rfl, ?_, rfl, by decide⟩
  · exact Reachable.step (Act.button BUTTONS_PAY "approver" 2000) sampleRow
      paidRow
      (Reachable.init "tester" 100 "Date: 1/2/2025\nEvent: rally" "requester"
        1000 1)
      (by
        show handleButton BUTTONS_PAY "approver" 2000 sampleRow = some paidRow
        unfold handleButton
        rw [if_pos rfl]
        rfl)
  · show handleButton BUTTONS_DECLINE "second" 3000 paidRow = _
    unfold handleButton
    rw [if_neg (by decide : ¬ BUTTONS_DECLINE = BUTTONS_PAY), if_pos rfl]

/-- Evaluation of the permission check on a present member. -/
theorem hasPayoutPermission_some (allowed : List String) (mem : Member) :
    hasPayoutPermission allowed (some mem)
      = if mem.managePermission.getD false then true
        else if allowed.length = 0 then false
        else allowed.any (fun rid => (mem.roles.getD []).contains rid) := rfl

/-- C5: the permission check allows exactly the callers that hold the
server-level manage permission, or — when the configured allow-list is
non-empty — hold at least one listed role; every other caller (including a
missing member) is denied. The check is a pure function of its inputs. -/
theorem c5_permission_iff (allowed : List String) (member : Option Member) :
    hasPayoutPermission allowed member = true
      ↔ ∃ mem, member = some mem
          ∧ (mem.managePermission = some true
             ∨ (allowed ≠ [] ∧ ∃ rid ∈ allowed, rid ∈ mem.roles.getD [])) := by
  cases member with
  | none =>
    simp [hasPayoutPermission]
  | some mem =>
    rw [hasPayoutPermission_some]
    constructor
    · intro h
      by_cases hb : mem.managePermission.getD false = true
      · refine ⟨mem, rfl, Or.inl ?_⟩
        rcases hmp : mem.managePermission with _ | b
        · rw [hmp] at hb
          simp at hb
        · rw [hmp] at hb
          simp only [Option.getD_some] at hb
          subst hb
          rfl
      · rw [if_neg hb] at h
        split_ifs at h with hlen
        · obtain ⟨rid, hrid, hc⟩ := List.any_eq_true.mp h
          refine ⟨mem, rfl, Or.inr ⟨?_, rid, hrid, ?_⟩⟩
          · intro he
            rw [he] at hlen
            exact hlen rfl
          · simpa using hc
    · rintro ⟨mem2, hmem, hcase⟩
      injection hmem with he
      subst he
      rcases hcase with hmg | ⟨hne, rid, hrid, hrole⟩
      · rw [hmg]
        simp
      · by_cases hb : mem.managePermission.getD false = true
        · rw [if_pos hb]
        · rw [if_neg hb,
            if_neg (fun hlen => hne (List.length_eq_zero.mp hlen))]
          exact List.any_eq_true.mpr ⟨rid, hrid, by simpa using hrole⟩

theorem c5_permission_iff_witness :
    hasPayoutPermission ["123"] (some ⟨some false, some ["123"]⟩) = true :=
  (c5_permission_iff ["123"] (some ⟨some false, some ["123"]⟩)).mpr
    ⟨⟨some false, some ["123"]⟩, rfl,
      Or.inr ⟨by simp, "123", by simp, by simp⟩⟩

/-- C10: form submission accepts an amount string exactly when the JS
`parseInt` prefix parse of its trimmed form yields a positive integer; a
string with trailing garbage or a fractional part is truncated to its
leading integer prefix ("100abc" gives 100, "12.9" gives 12), and the
rejected cases (NaN or value at most 0) create no row. The accepted value
is the amount stored by `insertPayout`. -/
theorem c10_amount_validation :
    (∀ s n, modalAmount s = some n
        ↔ parseIntJS (trimJS s) = some n ∧ 0 < n)
    ∧ modalAmount "100abc".data = some 100
    ∧ modalAmount "12.9".data = some 12
    ∧ modalAmount "abc".data = none
    ∧ modalAmount "0".data = none
    ∧ modalAmount "-5".data = none
    ∧ modalAmount "100".data = some 100
    ∧ (∀ u rsn req now id n,
        (insertPayout u n rsn req now id).amount = n) := by
  refine ⟨?_, by decide, by decide, by decide, by decide, by decide, by decide,
    fun _ _ _ _ _ _ => rfl⟩
  intro s n
  unfold modalAmount
  cases hp : parseIntJS (trimJS s) with
  | none =>
    simp
  | some a =>
    dsimp only
    split_ifs with h
    · constructor
      · intro hc
        cases hc
      · rintro ⟨he, hpos⟩
        injection he with he2
        omega
    · constructor
      · intro he
        injection he with he2
        subst he2
        exact ⟨rfl, by omega⟩
      · rintro ⟨he, hpos⟩
        exact he

theorem c10_amount_validation_witness :
    modalAmount "7".data = some 7 :=
  (c10_amount_validation.1 "7".data 7).mpr ⟨by decide, by decide⟩

/-- C4: the slash branch returns a result only when the reconstructed
calendar date of `new Date(y, m-1, d)` has exactly the parsed year, month
and day, and the nonexistent date 2/30/2025 is rejected rather than rolled
into March. -/
theorem c4_mdy_component_check (fb : List Char → Option (List Char)) :
    (∀ s m d y out, parseMDY s = some (m, d, y) →
        normalizeDateWith fb s = some out →
        civilFromDays (makeDay (yearAdjust (y : Int)) ((m : Int) - 1) (d : Int))
          = ((y : Int), (m : Int), (d : Int)))
    ∧ normalizeDateWith fb "2/30/2025".data = none := by
  constructor
  · intro s m d y out hp hn
    rw [normalizeDateWith_mdy fb s m d y hp] at hn
    split_ifs at hn with hc
    exact hc.2
  · rw [normalizeDateWith_mdy fb _ 2 30 2025 (by decide)]
    rw [if_neg (by decide)]

theorem c4_mdy_component_check_witness :
    civilFromDays (makeDay (yearAdjust ((2025 : Nat) : Int))
        (((1 : Nat) : Int) - 1) ((2 : Nat) : Int))
      = (((2025 : Nat) : Int), ((1 : Nat) : Int), ((2 : Nat) : Int)) :=
  (c4_mdy_component_check (fun _ => none)).1 "1/2/2025".data 1 2 2025
    "1/2/2025".data (by decide) (by decide)

/-- C9: the ISO branch performs no component round-trip check: every
ISO-shaped input yields a result (the constructor never produces an invalid
Date in this range), and a nonexistent date rolls over — "2025-02-30"
renders as the real date "03/02/2025". -/
theorem c9_iso_rollover (fb : List Char → Option (List Char)) :
    (∀ s y mm dd, parseISO s = some (y, mm, dd) →
        ∃ t, normalizeDateWith fb s = some t)
    ∧ normalizeDateWith fb "2025-02-30".data = some "03/02/2025".data
    ∧ civilFromDays (makeDay (yearAdjust ((2025 : Nat) : Int))
        (((2 : Nat) : Int) - 1) ((30 : Nat) : Int)) = (2025, 3, 2) := by
  refine ⟨?_, ?_, by decide⟩
  · intro s y mm dd hp
    obtain ⟨hy, hmm, hdd⟩ := parseISO_bounds s y mm dd hp
    rw [normalizeDateWith_iso fb s y mm dd hp]
    have hA := yearAdjust_range (y : Int) (by omega) (by omega)
    have hval : jsDateValid
        (makeDay (yearAdjust (y : Int)) ((mm : Int) - 1) (dd : Int)) = true :=
      makeDay_valid_range _ _ _ hA.1 hA.2 (by omega) (by omega) (by omega)
        (by omega)
    rw [if_pos hval]
    exact ⟨_, rfl⟩
  · rw [normalizeDateWith_iso fb _ 2025 2 30 (by decide), if_pos (by decide)]
    decide

theorem c9_iso_rollover_witness :
    ∃ t, normalizeDateWith (fun _ => none) "2025-02-30".data = some t :=
  (c9_iso_rollover (fun _ => none)).1 "2025-02-30".data 2025 2 30 (by decide)

/-- C3 counterexample: the normalizer is not a fixed point on its own
output for ISO inputs: "2025-02-05" normalizes to the zero-padded
"02/05/2025", and re-normalizing that returns the different string
"2/5/2025" (the slash branch re-renders components unpadded). -/
theorem c3_fixed_point_counterexample :
    normalizeDate "2025-02-05".data = some "02/05/2025".data
    ∧ normalizeDate "02/05/2025".data = some "2/5/2025".data
    ∧ "2/5/2025".data ≠ "02/05/2025".data :=
  ⟨by decide, by decide, by decide⟩

/-- C3 (amended): the output of the slash branch is a fixed point whenever
the year component is at least 1000 (so that the unpadded output still has
a four-digit year and re-enters the modelled shapes); the output of the ISO
branch need not be a fixed point (its padding is stripped on
re-normalization), but provided the produced year has four digits the
re-normalized output is itself a fixed point, i.e. normalization is
idempotent from the second application on. -/
theorem c3_fixed_point_amended (fb : List Char → Option (List Char)) :
    (∀ s m d y t, parseMDY s = some (m, d, y) → 1000 ≤ y →
        normalizeDateWith fb s = some t → normalizeDateWith fb t = some t)
    ∧ (∀ s y mm dd t Y M D, parseISO s = some (y, mm, dd) →
        normalizeDateWith fb s = some t →
        civilFromDays (makeDay (yearAdjust (y : Int)) ((mm : Int) - 1)
          (dd : Int)) = (Y, M, D) →
        1000 ≤ Y → Y ≤ 9999 →
        ∃ u, normalizeDateWith fb t = some u
          ∧ normalizeDateWith fb u = some u) := by
  constructor
  · intro s m d y t hp hy1000 hsome
    obtain ⟨hm99, hd99, hy9999⟩ := parseMDY_bounds s m d y hp
    rw [normalizeDateWith_mdy fb s m d y hp] at hsome
    split_ifs at hsome with hacc
    injection hsome with he
    subst he
    exact mdy_render_accept fb m d y hm99 hd99 hy1000 hy9999 hacc.1 hacc.2
  · intro s y mm dd t Y M D hp hsome hciv hY1 hY2
    obtain ⟨hy, hmm, hdd⟩ := parseISO_bounds s y mm dd hp
    rw [normalizeDateWith_iso fb s y mm dd hp] at hsome
    split_ifs at hsome with hval
    injection hsome with he
    subst he
    obtain ⟨hM1, hM2, hD1, hD2, hrt⟩ := civilFromDays_roundtrip
      (makeDay (yearAdjust (y : Int)) ((mm : Int) - 1) (dd : Int))
    rw [hciv] at hM1 hM2 hD1 hD2 hrt
    dsimp only at hM1 hM2 hD1 hD2 hrt
    have hMt : ((M.toNat : Nat) : Int) = M := Int.toNat_of_nonneg (by omega)
    have hDt : ((D.toNat : Nat) : Int) = D := Int.toNat_of_nonneg (by omega)
    have hYt : ((Y.toNat : Nat) : Int) = Y := Int.toNat_of_nonneg (by omega)
    have hYadj : yearAdjust ((Y.toNat : Nat) : Int) = Y := by
      rw [hYt]
      unfold yearAdjust
      rw [if_neg (by omega)]
    have hmk : makeDay (yearAdjust ((Y.toNat : Nat) : Int))
        (((M.toNat : Nat) : Int) - 1) ((D.toNat : Nat) : Int)
        = makeDay (yearAdjust (y : Int)) ((mm : Int) - 1) (dd : Int) := by
      rw [hYadj, hMt, hDt, makeDay_of_month_range Y M D hM1 hM2]
      exact hrt
    have hval2 : jsDateValid (makeDay (yearAdjust ((Y.toNat : Nat) : Int))
        (((M.toNat : Nat) : Int) - 1) ((D.toNat : Nat) : Int)) = true := by
      rw [hmk]
      exact hval
    have hacc2 : civilFromDays (makeDay (yearAdjust ((Y.toNat : Nat) : Int))
        (((M.toNat : Nat) : Int) - 1) ((D.toNat : Nat) : Int))
        = (((Y.toNat : Nat) : Int), ((M.toNat : Nat) : Int),
            ((D.toNat : Nat) : Int)) := by
      rw [hmk, hciv, hYt, hMt, hDt]
    have hfmt : fmtMDY (Y, M, D) = pad2 (renderNat M.toNat)
        ++ '/' :: pad2 (renderNat D.toNat) ++ '/' :: renderNat Y.toNat := by
      unfold fmtMDY
      dsimp only
      rw [renderInt_nonneg M (by omega), renderInt_nonneg D (by omega),
        renderInt_nonneg Y (by omega)]
    have hparse : parseMDY (fmtMDY (Y, M, D))
        = some (M.toNat, D.toNat, Y.toNat) := by
      rw [hfmt]
      exact parseMDY_render_padded M.toNat D.toNat Y.toNat (by omega)
        (by omega) (by omega) (by omega)
    rw [hciv]
    refine ⟨renderNat M.toNat ++ '/' :: renderNat D.toNat
        ++ '/' :: renderNat Y.toNat, ?_, ?_⟩
    · rw [normalizeDateWith_mdy fb _ _ _ _ hparse, if_pos ⟨hval2, hacc2⟩]
    · exact mdy_render_accept fb M.toNat D.toNat Y.toNat (by omega)
        (by omega) (by omega) (by omega) hval2 hacc2

theorem c3_fixed_point_amended_witness :
    normalizeDateWith (fun _ => none) "1/2/2025".data
      = some "1/2/2025".data :=
  (c3_fixed_point_amended (fun _ => none)).1 "1/2/2025".data 1 2 2025
    "1/2/2025".data (by decide) (by decide) (by decide)

end PayoutBot
